import Mathlib

/-!
# Verification of the log-structured document store (exercise-15 `database.ts`)

Shallow embedding of `src/exercises/exercise-15/database.ts`.

Records at runtime are dynamic JSON-derived objects: a record is a list of
(field name, value) pairs, a value is one of the primitive runtime shapes the
store manipulates (JSON cannot produce `NaN`, so record numbers are modelled
as integers; the numbers arising from string coercion are exact rationals
with infinities, see `JSNum`). Field access on a missing key yields
`undefined`, as in JavaScript.
-/

inductive Value where
  | num (n : Int)
  | str (s : String)
  | bool (b : Bool)
  | null
  | undef
deriving DecidableEq, Repr

/-- A runtime record: a JavaScript object, i.e. an ordered list of own
properties. A key can be present with the `undefined` value, which is
observably different from the key being absent. -/
structure Rec where
  fields : List (String × Value)
deriving DecidableEq, Repr

/-- JavaScript property read `record[key]`: the first matching own property,
`undefined` when the key is absent. -/
def getField (r : Rec) (k : String) : Value :=
  match r.fields.find? (fun p => p.1 == k) with
  | some p => p.2
  | none => Value.undef

/-- Whether `key` is an own property of the object (JS `key in record`). -/
def hasKey (r : Rec) (k : String) : Bool :=
  r.fields.any (fun p => p.1 == k)

/-- JavaScript `typeof` (on the value shapes of the model);
`typeof null` is `"object"`. -/
def typeName : Value → String
  | Value.num _ => "number"
  | Value.str _ => "string"
  | Value.bool _ => "boolean"
  | Value.null => "object"
  | Value.undef => "undefined"

/-- JavaScript strict equality `===` on the modelled primitives: never equates
values of different runtime types. (`NaN` is unreachable: records come from
`JSON.parse`.) -/
def jsStrictEq : Value → Value → Bool
  | Value.num a, Value.num b => a == b
  | Value.str a, Value.str b => a == b
  | Value.bool a, Value.bool b => a == b
  | Value.null, Value.null => true
  | Value.undef, Value.undef => true
  | _, _ => false

/-- A JavaScript number that is not `NaN`: a finite value or one of the two
infinities. Finite values are exact rationals; the binary64 rounding of
literals (and the overflow of huge literals to `Infinity`) is not modelled —
the properties under study depend on which strings are numeric, not on
rounding. -/
inductive JSNum where
  | fin (q : ℚ)
  | posInf
  | negInf
deriving DecidableEq, Repr

/-- Negation of a non-`NaN` JavaScript number. -/
def jsNumNeg : JSNum → JSNum
  | JSNum.fin q => JSNum.fin (-q)
  | JSNum.posInf => JSNum.negInf
  | JSNum.negInf => JSNum.posInf

/-- Numeric `<` on non-`NaN` JavaScript numbers. -/
def jsNumLt : JSNum → JSNum → Bool
  | JSNum.fin a, JSNum.fin b => a < b
  | JSNum.fin _, JSNum.posInf => true
  | JSNum.fin _, JSNum.negInf => false
  | JSNum.posInf, _ => false
  | JSNum.negInf, JSNum.negInf => false
  | JSNum.negInf, _ => true

/-- Code points of the white space and line terminator characters stripped by
the string-to-number coercion (ECMAScript `StrWhiteSpaceChar`): tab, LF, VT,
FF, CR, space, NBSP, ogham space mark, LS, PS, NNBSP, MMSP, ideographic
space, ZWNBSP. -/
def jsWhitespaceCodes : List Nat :=
  [0x09, 0x0a, 0x0b, 0x0c, 0x0d, 0x20, 0xa0, 0x1680,
    0x2028, 0x2029, 0x202f, 0x205f, 0x3000, 0xfeff]

/-- Whether a character is string-to-number white space: its code point is
listed above or lies in the `0x2000`–`0x200a` space block. -/
def isJsWhitespace (c : Char) : Bool :=
  jsWhitespaceCodes.contains c.toNat ||
    (0x2000 ≤ c.toNat && c.toNat ≤ 0x200a)

/-- Drops leading white space characters. -/
def dropWhileWs : List Char → List Char
  | [] => []
  | c :: rest => if isJsWhitespace c then dropWhileWs rest else c :: rest

/-- Strips white space from both ends. -/
def trimWs (cs : List Char) : List Char :=
  (dropWhileWs (dropWhileWs cs).reverse).reverse

/-- Splits off the longest prefix of decimal digits. -/
def takeDigits : List Char → (List Char × List Char)
  | [] => ([], [])
  | c :: rest =>
    if !c.isDigit then ([], c :: rest)
    else
      let p := takeDigits rest
      (c :: p.1, p.2)

/-- Value of a string of decimal digits (code point of `0` is `48`). -/
def digitsVal (ds : List Char) : Nat :=
  ds.foldl (fun a d => 10 * a + (d.toNat - 48)) 0

/-- Value of one digit in up to hexadecimal notation, by code point:
`0`–`9` are `48`–`57`, `a`–`f` are `97`–`102`, `A`–`F` are `65`–`70`. -/
def hexDigitVal (c : Char) : Option Nat :=
  let n := c.toNat
  if 48 ≤ n && n ≤ 57 then some (n - 48)
  else if 97 ≤ n && n ≤ 102 then some (n - 87)
  else if 65 ≤ n && n ≤ 70 then some (n - 55)
  else none

/-- Accumulating digit reader for a non-decimal radix (2, 8 or 16). -/
def radixAux (radix : Nat) (acc : Nat) : List Char → Option Nat
  | [] => some acc
  | c :: rest =>
    match hexDigitVal c with
    | some v => if v < radix then radixAux radix (radix * acc + v) rest else none
    | none => none

/-- A non-empty all-digit string in the given radix, entirely consumed. -/
def parseRadixDigits (radix : Nat) : List Char → Option Nat
  | [] => none
  | cs => radixAux radix 0 cs

/-- The optional exponent part of a decimal literal (`e`/`E`, optional sign,
at least one digit), which must consume the whole remainder; an absent
remainder means exponent `0`. -/
def parseExponent : List Char → Option Int
  | [] => some 0
  | c :: rest =>
    if c == 'e' || c == 'E' then
      match rest with
      | '+' :: ds =>
        if ds ≠ [] ∧ ds.all Char.isDigit then some (digitsVal ds) else none
      | '-' :: ds =>
        if ds ≠ [] ∧ ds.all Char.isDigit then some (-(digitsVal ds : Int))
        else none
      | ds =>
        if ds ≠ [] ∧ ds.all Char.isDigit then some (digitsVal ds) else none
    else none

/-- The exact rational `digits * 10 ^ (e - fracLen)` of a decimal literal
whose mantissa digits have value `digits` with `fracLen` of them after the
point. -/
def decToRat (digits : Nat) (fracLen : Nat) (e : Int) : ℚ :=
  let k : Int := e - fracLen
  if 0 ≤ k then ((digits * 10 ^ k.toNat : Nat) : ℚ)
  else mkRat digits (10 ^ (-k).toNat)

/-- An unsigned decimal literal: `DecimalDigits [. DecimalDigits?]
[ExponentPart]` or `. DecimalDigits [ExponentPart]`, entirely consumed. -/
def parseDecimal (cs : List Char) : Option ℚ :=
  let p := takeDigits cs
  match p.2 with
  | '.' :: rest2 =>
    let f := takeDigits rest2
    if p.1.isEmpty && f.1.isEmpty then none
    else
      (parseExponent f.2).map (fun e =>
        decToRat (digitsVal (p.1 ++ f.1)) f.1.length e)
  | _ =>
    if p.1.isEmpty then none
    else (parseExponent p.2).map (fun e => decToRat (digitsVal p.1) 0 e)

/-- An unsigned decimal literal or the literal `Infinity`. -/
def parseUnsignedDec (cs : List Char) : Option JSNum :=
  if cs == "Infinity".toList then some JSNum.posInf
  else (parseDecimal cs).map JSNum.fin

/-- The `StrNumericLiteral` grammar: an optionally signed decimal literal or
`Infinity`, or an unsigned `0x`/`0o`/`0b` radix literal. -/
def parseStrNumericLiteral (cs : List Char) : Option JSNum :=
  match cs with
  | '+' :: rest => parseUnsignedDec rest
  | '-' :: rest => (parseUnsignedDec rest).map jsNumNeg
  | '0' :: c :: rest =>
    if c == 'x' || c == 'X' then
      (parseRadixDigits 16 rest).map (fun n => JSNum.fin (n : ℚ))
    else if c == 'o' || c == 'O' then
      (parseRadixDigits 8 rest).map (fun n => JSNum.fin (n : ℚ))
    else if c == 'b' || c == 'B' then
      (parseRadixDigits 2 rest).map (fun n => JSNum.fin (n : ℚ))
    else parseUnsignedDec cs
  | _ => parseUnsignedDec cs

/-- JavaScript `ToNumber` on a string (`StringNumericLiteral`): strip white
space; an empty or all-white-space string is `0`; otherwise parse the
numeric-literal grammar, any failure giving `NaN` (modelled as `none`). -/
def jsStringToNumber (s : String) : Option JSNum :=
  let cs := trimWs s.toList
  if cs.isEmpty then some (JSNum.fin 0)
  else parseStrNumericLiteral cs

/-- JavaScript `ToNumber` coercion: `null` is `0`, `undefined` is `NaN`
(modelled as `none`), booleans are `1`/`0`, strings go through the
`StringNumericLiteral` grammar. -/
def toNumber : Value → Option JSNum
  | Value.num n => some (JSNum.fin (n : ℚ))
  | Value.str s => jsStringToNumber s
  | Value.bool b => some (JSNum.fin (if b then 1 else 0))
  | Value.null => some (JSNum.fin 0)
  | Value.undef => none

/-- JavaScript abstract relational comparison `a < b`: two strings compare
lexicographically, any other pair is coerced with `ToNumber`, and a comparison
involving `NaN` is `false`. -/
def jsLess : Value → Value → Bool
  | Value.str a, Value.str b => a < b
  | a, b =>
    match toNumber a, toNumber b with
    | some x, some y => jsNumLt x y
    | _, _ => false

/-- JavaScript `String(v)` conversion on the modelled primitives. -/
def jsToString : Value → String
  | Value.num n => toString n
  | Value.str s => s
  | Value.bool b => if b then "true" else "false"
  | Value.null => "null"
  | Value.undef => "undefined"

/-- A query criterion, `QueryCriterion<T, K>` of the source: exactly one of
`$gt`, `$lt`, `$eq`, `$in`. -/
inductive Criterion where
  | gt (v : Value)
  | lt (v : Value)
  | eq (v : Value)
  | inL (vs : List Value)
deriving DecidableEq, Repr

-- The recursive query tree `Query<T>` of the source, as the tagged union the
-- structural `'$and' in query` discrimination implements.  The nested lists of
-- sub-queries are represented by a mutual list type so that evaluation is
-- structural recursion.
mutual
inductive Query where
  | qand (qs : QueryList)
  | qor (qs : QueryList)
  | qtext (s : String)
  | qcond (entries : List (String × Criterion))
inductive QueryList where
  | nil
  | cons (q : Query) (qs : QueryList)
end

/-- Splitting a character list on the space character, the semantics of
JavaScript `String.prototype.split(' ')`: consecutive separators and
boundary separators produce empty words, the empty string yields one empty
word. -/
def splitSpace : List Char → List (List Char)
  | [] => [[]]
  | c :: rest =>
    match splitSpace rest with
    | [] => [[]]
    | w :: ws => if c == ' ' then [] :: w :: ws else (c :: w) :: ws

/-- `QueryChecker.extractWords`: `text.toLowerCase().split(' ')`. -/
def extractWords (text : String) : List String :=
  (splitSpace (text.toList.map Char.toLower)).map (fun w => String.mk w)

/-- `QueryChecker.checkCriterion`: evaluates one criterion against the record
field `key`. `$in` and `$eq` use strict equality, `$gt` is
`criterion.$gt < value`, `$lt` is `criterion.$lt > value`. -/
def checkCriterion (r : Rec) (key : String) (c : Criterion) : Bool :=
  let valueToCheck := getField r key
  match c with
  | Criterion.inL vs => vs.any (fun v => jsStrictEq v valueToCheck)
  | Criterion.gt g => jsLess g valueToCheck
  | Criterion.lt l => jsLess valueToCheck l
  | Criterion.eq e => jsStrictEq e valueToCheck

-- `QueryChecker.isOk` (mutually with the evaluation of `$and`/`$or`
-- sub-query lists, which the source runs with `Array.every`/`Array.some`):
-- decides whether `r` matches the query, given the configured full-text
-- search field names.
mutual
def isOk (ftf : List String) (r : Rec) : Query → Bool
  | Query.qand qs => allOk ftf r qs
  | Query.qor qs => anyOk ftf r qs
  | Query.qtext s =>
    (extractWords s).all (fun word =>
      (ftf.map (fun name => extractWords (jsToString (getField r name)))).any
        (fun words => words.contains word))
  | Query.qcond entries => entries.all (fun e => checkCriterion r e.1 e.2)
def allOk (ftf : List String) (r : Rec) : QueryList → Bool
  | QueryList.nil => true
  | QueryList.cons q qs => isOk ftf r q && allOk ftf r qs
def anyOk (ftf : List String) (r : Rec) : QueryList → Bool
  | QueryList.nil => false
  | QueryList.cons q qs => isOk ftf r q || anyOk ftf r qs
end

/-- `Filter.get`: keeps the records matching the query. -/
def filterGet (ftf : List String) (q : Query) (arr : List Rec) : List Rec :=
  arr.filter (fun elm => isOk ftf elm q)

/-- Lexicographic three-way comparison of character lists. -/
def charListCompare : List Char → List Char → Int
  | [], [] => 0
  | [], _ :: _ => -1
  | _ :: _, [] => 1
  | a :: as, b :: bs =>
    if a < b then -1 else if b < a then 1 else charListCompare as bs

/-- Comparison of two string field values, standing in for
`String.prototype.localeCompare`: the locale collation is an external
collaborator of the store, modelled as the code-point order on strings (an
antisymmetric total comparison, which is all the store relies on). -/
def strCompare (a b : String) : Int :=
  charListCompare a.toList b.toList

/-- Body of `comparatorFactory` in `Sorter.get`, acting on the two field
values: numbers compare by difference, strings by collation, any other
combination of runtime types contributes `0`. `sorter` is the direction
multiplier `1`/`-1` from the sort spec. -/
def valCompare (sorter : Int) (a b : Value) : Int :=
  match a, b with
  | Value.num x, Value.num y => (x - y) * sorter
  | Value.str x, Value.str y => sorter * strCompare x y
  | _, _ => 0

/-- One per-field comparator produced by `comparatorFactory key sorter`. -/
def fieldCompare (key : String) (sorter : Int) (a b : Rec) : Int :=
  valCompare sorter (getField a key) (getField b key)

/-- The composite comparator passed to `Array.prototype.sort`: the `for` loop
over the per-field comparators, returning the first non-zero result and `0`
when every comparator ties. The sort spec is the ordered list of
`Object.entries(this.sort)`. -/
def compareRecords (spec : List (String × Int)) (a b : Rec) : Int :=
  match spec with
  | [] => 0
  | (key, sorter) :: rest =>
    let n := fieldCompare key sorter a b
    if n ≠ 0 then n else compareRecords rest a b

/-- The boolean "not after" relation induced by the composite comparator; an
element `a` may precede `b` exactly when the comparator does not order `b`
strictly first. -/
def recLe (spec : List (String × Int)) (a b : Rec) : Bool :=
  compareRecords spec a b ≤ 0

/-- `Sorter.get`: `Array.prototype.sort` with the composite comparator.
ECMAScript requires the sort to be stable, so it is modelled as a stable
merge sort ordered by `recLe`. -/
def sorterGet (spec : List (String × Int)) (arr : List Rec) : List Rec :=
  arr.mergeSort (recLe spec)

/-- JavaScript object update `{...obj, [k]: v}`: an existing key keeps its
position and receives the new value, a new key is appended last. -/
def objSet (fields : List (String × Value)) (k : String) (v : Value) :
    List (String × Value) :=
  if fields.any (fun p => p.1 == k) then
    fields.map (fun p => if p.1 == k then (p.1, v) else p)
  else
    fields ++ [(k, v)]

/-- Per-record body of `Projector.get`: the `reduce` over the projection keys,
building `{...prev, [cur]: line[cur]}` starting from `{}`. Note that the
computed-key spread always creates the property, so a key absent on `line`
appears in the output with the `undefined` value. -/
def projectRecord (projKeys : List String) (line : Rec) : Rec :=
  Rec.mk (projKeys.foldl (fun prev cur => objSet prev cur (getField line cur)) [])

/-- `Projector.get`: projects every record. The projection spec is the key
list `Object.keys({...this.projector})`, whose keys are distinct. -/
def projectorGet (projKeys : List String) (arr : List Rec) : List Rec :=
  arr.map (projectRecord projKeys)

/-- Payload of a log line, the opaque `JSON.stringify`/`JSON.parse`
serialize/deserialize collaborator of the store (spec treats record
encode/decode as an external capability): a payload is either the
serialization of a record — which deserializes back to it — or an
unparseable string. -/
inductive Payload where
  | good (r : Rec)
  | bad (s : String)
deriving DecidableEq, Repr

/-- `JSON.parse(line.substring(1))` in `Database.parseLine`: deserialization,
failing exactly on unparseable payloads. -/
def parsePayload : Payload → Option Rec
  | Payload.good r => some r
  | Payload.bad _ => none

/-- One physical log line: its first character (the tag) followed by the
payload. (`Database.isDeleted` inspects `line.startsWith('D')`, i.e. the
first character; lines written by the store are always tag-then-payload.) -/
structure Line where
  tag : Char
  payload : Payload
deriving DecidableEq, Repr

/-- `Database.isDeleted`: `line.startsWith('D')`, i.e. the first character of
the line is `D`. -/
def isDeleted (line : Line) : Bool :=
  line.tag == 'D'

/-- `Database.writeExistingRecord`: tag `E` followed by the serialized
record. -/
def writeExistingRecord (r : Rec) : Line :=
  Line.mk 'E' (Payload.good r)

/-- `Database.writeDeletedRecord`: tag `D` followed by the serialized
record. -/
def writeDeletedRecord (r : Rec) : Line :=
  Line.mk 'D' (Payload.good r)

/-- `Database.readAll`: scans the file's lines in order, skips tombstoned
lines, deserializes every other line, and fail-fast rejects the whole call on
the first deserialize failure (`none`). -/
def readAll : List Line → Option (List Rec)
  | [] => some []
  | line :: rest =>
    if isDeleted line then readAll rest
    else
      match parsePayload line.payload with
      | none => none
      | some r => (readAll rest).map (fun rs => r :: rs)

/-- `Database.find` with no options, as `Database.delete` invokes it: re-reads
the file and filters by the query (errors of `readAll` propagate). -/
def findQ (ftf : List String) (file : List Line) (q : Query) :
    Option (List Rec) :=
  (readAll file).map (filterGet ftf q)

/-- Key list of the `Map` built by the `reduce` in `Database.delete` (a
JavaScript `Map` keyed by `record._id`): `Map.set` keeps an existing key in
place, a new key is appended. Values are irrelevant to `Map.has`, so only the
key list is tracked. -/
def mapSetKey (keys : List Value) (k : Value) : List Value :=
  if keys.any (fun key => jsStrictEq key k) then keys else keys ++ [k]

/-- `recordsToDeleteMap.has(record._id)` for the map built from the delete
subset. -/
def mapHasKey (keys : List Value) (k : Value) : Bool :=
  keys.any (fun key => jsStrictEq key k)

/-- The key list of `recordsToDeleteMap` built by the `reduce` over the
records returned by `find(query)`. -/
def buildDeleteKeys (recordsToDelete : List Rec) : List Value :=
  recordsToDelete.foldl (fun keys cur => mapSetKey keys (getField cur "_id")) []

/-- `Database.delete`: reads all live records, runs `find(query)` (a second
read of the same file), and rewrites the file with one line per live record —
tombstoned with `D` when the record's `_id` is a key of the delete map,
re-emitted with `E` otherwise. -/
def deleteQ (ftf : List String) (file : List Line) (q : Query) :
    Option (List Line) :=
  match readAll file with
  | none => none
  | some all =>
    match findQ ftf file q with
    | none => none
    | some recordsToDelete =>
      let keys := buildDeleteKeys recordsToDelete
      some (all.map (fun record =>
        if mapHasKey keys (getField record "_id") then
          writeDeletedRecord record
        else
          writeExistingRecord record))

/-- `Database.insert`: appends one line tagged `E`. -/
def insertRec (file : List Line) (r : Rec) : List Line :=
  file ++ [writeExistingRecord r]

/-! ## Basic lemmas about the runtime value model -/

theorem jsStrictEq_refl (v : Value) : jsStrictEq v v = true := by
  cases v <;> simp [jsStrictEq]

theorem jsStrictEq_symm {v w : Value} (h : jsStrictEq v w = true) :
    jsStrictEq w v = true := by
  cases v <;> cases w <;> simp_all [jsStrictEq]

theorem jsStrictEq_trans {u v w : Value} (h1 : jsStrictEq u v = true)
    (h2 : jsStrictEq v w = true) : jsStrictEq u w = true := by
  cases u <;> cases v <;> cases w <;> simp_all [jsStrictEq]

theorem jsStrictEq_false_of_typeName_ne {v w : Value}
    (h : typeName v ≠ typeName w) : jsStrictEq v w = false := by
  cases v <;> cases w <;> simp_all [jsStrictEq, typeName]

theorem jsLess_false_of_toNumber_none {v w : Value}
    (hty : typeName v ≠ typeName w)
    (hnone : toNumber v = none ∨ toNumber w = none) : jsLess v w = false := by
  cases v <;> cases w <;> simp_all [jsLess, typeName] <;>
    rcases hnone with h | h <;> simp_all [toNumber]

/-! ## Claims about the query evaluator -/

/-- C8: the empty disjunction `{$or: []}` matches no record. -/
theorem claim_C8 (ftf : List String) (r : Rec) :
    isOk ftf r (Query.qor QueryList.nil) = false := rfl

/-- C9: an equality criterion built from the record's own value at a field
always matches that record. -/
theorem claim_C9 (ftf : List String) (r : Rec) (f : String) :
    isOk ftf r (Query.qcond [(f, Criterion.eq (getField r f))]) = true := by
  simp [isOk, checkCriterion, jsStrictEq_refl]

/-- C2: a `{$text: s}` query matches a record iff every word of the
lowercased, space-split query string is a whole-word member of the token list
of at least one configured full-text field, each field tokenized the same
way; fields are not concatenated. -/
theorem claim_C2 (ftf : List String) (r : Rec) (s : String) :
    isOk ftf r (Query.qtext s) = true ↔
      ∀ w ∈ extractWords s, ∃ f ∈ ftf,
        w ∈ extractWords (jsToString (getField r f)) := by
  simp [isOk, List.all_eq_true, List.any_eq_true, List.mem_map,
    List.contains_iff_exists_mem_beq]

/-- C3 counterexample: the criterion `{$gt: 5}` (a numeric criterion value)
evaluated against the record `{a: "10"}` (a string field value, an
incompatible runtime type) matches, because the relational comparison coerces
the numeric string: the claim that such an evaluation always yields no match
is false. -/
theorem claim_C3_counterexample :
    typeName (Value.num 5) ≠
      typeName (getField (Rec.mk [("a", Value.str "10")]) "a") ∧
    checkCriterion (Rec.mk [("a", Value.str "10")]) "a"
      (Criterion.gt (Value.num 5)) = true := by
  decide

/-- C3 (amended): every criterion evaluation is total (no runtime fault);
`$eq` never matches a field value of a different runtime type, and `$in`
never matches when every listed candidate has a different runtime type than
the field value; `$gt`/`$lt` on a pair of distinct runtime types coerce both
sides with `ToNumber` and yield no match whenever either side coerces to
`NaN` (for example a non-numeric string, or `undefined`, against a number) —
but an operand that does coerce (a numeric string, `null`, a boolean) is
compared numerically and may match. -/
theorem claim_C3 (r : Rec) (k : String) (v : Value) (vs : List Value)
    (hty : typeName v ≠ typeName (getField r k))
    (hvs : ∀ w ∈ vs, typeName w ≠ typeName (getField r k)) :
    checkCriterion r k (Criterion.eq v) = false ∧
    checkCriterion r k (Criterion.inL vs) = false ∧
    ((toNumber v = none ∨ toNumber (getField r k) = none) →
      checkCriterion r k (Criterion.gt v) = false ∧
      checkCriterion r k (Criterion.lt v) = false) := by
  refine ⟨?_, ?_, fun hnum => ⟨?_, ?_⟩⟩
  · simpa [checkCriterion] using jsStrictEq_false_of_typeName_ne hty
  · simp only [checkCriterion]
    rw [List.any_eq_false]
    intro w hw
    simp [jsStrictEq_false_of_typeName_ne (hvs w hw)]
  · simpa [checkCriterion] using jsLess_false_of_toNumber_none hty hnum
  · simpa [checkCriterion] using
      jsLess_false_of_toNumber_none (Ne.symm hty) hnum.symm

theorem claim_C3_witness :
    (typeName (Value.num 5) ≠
        typeName (getField (Rec.mk [("a", Value.str "abc")]) "a") ∧
      toNumber (getField (Rec.mk [("a", Value.str "abc")]) "a") = none) ∧
    (checkCriterion (Rec.mk [("a", Value.str "abc")]) "a"
        (Criterion.eq (Value.num 5)) = false ∧
      checkCriterion (Rec.mk [("a", Value.str "abc")]) "a"
        (Criterion.inL [Value.num 5, Value.null]) = false ∧
      checkCriterion (Rec.mk [("a", Value.str "abc")]) "a"
        (Criterion.gt (Value.num 5)) = false ∧
      checkCriterion (Rec.mk [("a", Value.str "abc")]) "a"
        (Criterion.lt (Value.num 5)) = false) :=
  ⟨⟨by decide, by decide⟩,
    have h := claim_C3 (Rec.mk [("a", Value.str "abc")]) "a" (Value.num 5)
      [Value.num 5, Value.null] (by decide)
      (by
        intro w hw
        simp only [List.mem_cons, List.not_mem_nil, or_false] at hw
        rcases hw with rfl | rfl <;> decide)
    have hlt := h.2.2 (Or.inr (by decide))
    ⟨h.1, h.2.1, hlt.1, hlt.2⟩⟩

/-! ## Lemmas about the projector -/

theorem replace_key_fixed (k' k : String) (v : Value) :
    ((fun p : String × Value => p.1 == k) ∘
        (fun p : String × Value => if p.1 == k' then (p.1, v) else p)) =
      (fun p : String × Value => p.1 == k) := by
  funext p
  by_cases hp : p.1 = k' <;> simp [hp]

theorem getField_replace (fields : List (String × Value)) (k' k : String)
    (v : Value) :
    getField (Rec.mk (fields.map fun p => if p.1 == k' then (p.1, v) else p)) k
      = (match fields.find? (fun p => p.1 == k) with
        | some p => if p.1 == k' then v else p.2
        | none => Value.undef) := by
  unfold getField
  rw [List.find?_map, replace_key_fixed]
  cases hf : fields.find? (fun p => p.1 == k)
  · rfl
  · rename_i p
    by_cases hp : p.1 = k' <;> simp [hp]

theorem hasKey_map_replace (fields : List (String × Value)) (k' k : String)
    (v : Value) :
    hasKey (Rec.mk (fields.map fun p => if p.1 == k' then (p.1, v) else p)) k
      = hasKey (Rec.mk fields) k := by
  unfold hasKey
  rw [List.any_map, replace_key_fixed]

theorem getField_objSet (fields : List (String × Value)) (k' k : String)
    (v : Value) :
    getField (Rec.mk (objSet fields k' v)) k =
      (if k' == k then v else getField (Rec.mk fields) k) := by
  unfold objSet
  by_cases hany : fields.any (fun p => p.1 == k') = true
  · rw [if_pos hany, getField_replace]
    rcases eq_or_ne k' k with rfl | hne
    · simp only [beq_self_eq_true, if_pos]
      rcases hp : fields.find? (fun p => p.1 == k') with _ | p
      · rw [List.find?_eq_none] at hp
        rcases List.any_eq_true.mp hany with ⟨x, hx, hxk⟩
        exact absurd hxk (hp x hx)
      · have hpk : p.1 = k' := by simpa using List.find?_some hp
        simp [hp, hpk]
    · have hne' : (k' == k) = false := by simpa using hne
      simp only [hne', Bool.false_eq_true, if_neg, not_false_iff]
      unfold getField
      rcases hf : fields.find? (fun p => p.1 == k) with _ | p
      · simp [hf]
      · have hpk : p.1 = k := by simpa using List.find?_some hf
        have hpk' : ¬ (p.1 = k') := by
          rw [hpk]
          exact fun h => hne h.symm
        simp [hf, hpk']
  · rw [if_neg hany]
    rcases eq_or_ne k' k with rfl | hne
    · simp only [beq_self_eq_true, if_pos]
      have hnone : fields.find? (fun p => p.1 == k') = none := by
        rw [List.find?_eq_none]
        intro x hx hcontra
        exact hany (List.any_eq_true.mpr ⟨x, hx, hcontra⟩)
      simp [getField, List.find?_append, hnone]
    · have hne' : (k' == k) = false := by simpa using hne
      simp only [hne', Bool.false_eq_true, if_neg, not_false_iff]
      unfold getField
      rw [List.find?_append]
      cases hf : fields.find? (fun p => p.1 == k) <;> simp [hf, hne']

theorem hasKey_objSet (fields : List (String × Value)) (k' k : String)
    (v : Value) :
    hasKey (Rec.mk (objSet fields k' v)) k =
      (hasKey (Rec.mk fields) k || (k' == k)) := by
  unfold objSet
  by_cases hany : fields.any (fun p => p.1 == k') = true
  · rw [if_pos hany, hasKey_map_replace]
    by_cases hkk : k' = k
    · subst hkk
      simp [hasKey, hany]
    · have hkk' : (k' == k) = false := by simpa using hkk
      simp [hkk']
  · rw [if_neg hany]
    simp [hasKey]

theorem projectRecord_foldl (r : Rec) (keys : List String)
    (acc : List (String × Value)) (k : String) :
    (hasKey (Rec.mk (keys.foldl
          (fun prev cur => objSet prev cur (getField r cur)) acc)) k = true ↔
        (hasKey (Rec.mk acc) k = true ∨ k ∈ keys)) ∧
    (getField (Rec.mk (keys.foldl
          (fun prev cur => objSet prev cur (getField r cur)) acc)) k =
        (if k ∈ keys then getField r k else getField (Rec.mk acc) k)) := by
  induction keys generalizing acc with
  | nil => simp
  | cons c rest ih =>
    simp only [List.foldl_cons]
    obtain ⟨ihh, ihg⟩ := ih (objSet acc c (getField r c))
    constructor
    · rw [ihh, hasKey_objSet]
      by_cases hck : c = k
      · subst hck
        simp
      · have hck' : (c == k) = false := by simpa using hck
        have : ¬ (k = c) := fun h => hck h.symm
        simp [hck', List.mem_cons, this]
    · rw [ihg, getField_objSet]
      by_cases hmem : k ∈ rest
      · simp [hmem, List.mem_cons]
      · by_cases hck : c = k
        · subst hck
          simp [hmem]
        · have hck' : (c == k) = false := by simpa using hck
          have : ¬ (k = c) := fun h => hck h.symm
          simp [hmem, hck', this, List.mem_cons]

/-- C5 counterexample: projecting the field `name` out of a record on which
`name` is absent produces an output record that still carries the key `name`
(with the `undefined` value): the field is not omitted from the output,
contrary to the claim. -/
theorem claim_C5_counterexample :
    hasKey (projectRecord ["name"] (Rec.mk [])) "name" = true ∧
    getField (projectRecord ["name"] (Rec.mk [])) "name" = Value.undef := by
  decide

/-- C5 (amended): the output record of the projector carries exactly the keys
of the projection spec — a projected field present on the source record keeps
its source value, while a projected field absent on the source record is
still inserted into the output, with the `undefined` value (it is not
omitted). Fields not named by the spec never appear in the output. -/
theorem claim_C5 (projKeys : List String) (r : Rec) (k : String) :
    (hasKey (projectRecord projKeys r) k = true ↔ k ∈ projKeys) ∧
    getField (projectRecord projKeys r) k =
      (if k ∈ projKeys then getField r k else Value.undef) := by
  obtain ⟨hh, hg⟩ := projectRecord_foldl r projKeys [] k
  unfold projectRecord
  constructor
  · rw [hh]
    simp [hasKey]
  · rw [hg]
    simp [getField]

/-! ## Lemmas about the log store -/

theorem mapHasKey_mapSetKey (keys : List Value) (k' k : Value) :
    mapHasKey (mapSetKey keys k') k = (mapHasKey keys k || jsStrictEq k' k) := by
  unfold mapSetKey mapHasKey
  by_cases h : keys.any (fun key => jsStrictEq key k') = true
  · rw [if_pos h]
    by_cases hk : jsStrictEq k' k = true
    · rcases List.any_eq_true.mp h with ⟨x, hx, hxk⟩
      have hxkk : jsStrictEq x k = true := jsStrictEq_trans hxk hk
      have hl : (keys.any fun key => jsStrictEq key k) = true :=
        List.any_eq_true.mpr ⟨x, hx, hxkk⟩
      rw [hl, hk, Bool.true_or]
    · have hk' : jsStrictEq k' k = false := by simpa using hk
      simp [hk']
  · rw [if_neg h]
    simp

theorem mapHasKey_foldl (ds : List Rec) (acc : List Value) (k : Value) :
    mapHasKey (ds.foldl (fun ks cur => mapSetKey ks (getField cur "_id")) acc) k
      = (mapHasKey acc k ||
          ds.any (fun d => jsStrictEq (getField d "_id") k)) := by
  induction ds generalizing acc with
  | nil => simp
  | cons d rest ih =>
    simp only [List.foldl_cons, List.any_cons]
    rw [ih, mapHasKey_mapSetKey, Bool.or_assoc]

theorem buildDeleteKeys_has (ds : List Rec) (k : Value) :
    mapHasKey (buildDeleteKeys ds) k =
      ds.any (fun d => jsStrictEq (getField d "_id") k) := by
  unfold buildDeleteKeys
  rw [mapHasKey_foldl]
  simp [mapHasKey]

theorem deleteQ_eq_some {ftf : List String} {file : List Line} {q : Query}
    {newFile : List Line} (h : deleteQ ftf file q = some newFile) :
    ∃ recs, readAll file = some recs ∧
      newFile = recs.map (fun r =>
        if (filterGet ftf q recs).any
            (fun d => jsStrictEq (getField d "_id") (getField r "_id"))
        then writeDeletedRecord r else writeExistingRecord r) := by
  unfold deleteQ findQ at h
  rcases hra : readAll file with _ | all
  · rw [hra] at h
    exact absurd h (by simp)
  · rw [hra] at h
    simp only [Option.map_some'] at h
    refine ⟨all, rfl, ?_⟩
    simp only [Option.some.injEq] at h
    rw [← h]
    apply List.map_congr_left
    intro r _
    rw [buildDeleteKeys_has]

theorem isDeleted_writeDeleted (r : Rec) :
    isDeleted (writeDeletedRecord r) = true := rfl

theorem isDeleted_writeExisting (r : Rec) :
    isDeleted (writeExistingRecord r) = false := rfl

theorem parse_writeExisting (r : Rec) :
    parsePayload (writeExistingRecord r).payload = some r := rfl

theorem readAll_tagged (recs : List Rec) (cnd : Rec → Bool) :
    readAll (recs.map
        (fun r => if cnd r then writeDeletedRecord r else writeExistingRecord r))
      = some (recs.filter (fun r => !cnd r)) := by
  induction recs with
  | nil => rfl
  | cons r rest ih =>
    cases hc : cnd r with
    | true =>
      rw [List.map_cons, if_pos hc]
      simp only [readAll, isDeleted_writeDeleted, if_true]
      rw [ih]
      simp [List.filter_cons, hc]
    | false =>
      rw [List.map_cons, if_neg (by simp [hc])]
      simp only [readAll, isDeleted_writeExisting, Bool.false_eq_true,
        if_neg, not_false_iff, parse_writeExisting]
      rw [ih]
      simp [List.filter_cons, hc]

/-- C1: when `delete(query)` completes successfully, the rewritten file has
exactly one line per record that was live before the call, in original file
order: tombstoned (`D`) iff the record's `_id` equals the `_id` of some
record returned by `find(query)`, re-emitted live (`E`) otherwise.
Already-tombstoned lines are dropped (live records are exactly the `readAll`
result). -/
theorem claim_C1 (ftf : List String) (file : List Line) (q : Query)
    (newFile : List Line) (h : deleteQ ftf file q = some newFile) :
    ∃ recs dels, readAll file = some recs ∧ findQ ftf file q = some dels ∧
      newFile = recs.map (fun r =>
        if dels.any (fun d => jsStrictEq (getField d "_id") (getField r "_id"))
        then writeDeletedRecord r else writeExistingRecord r) := by
  obtain ⟨recs, hra, hnf⟩ := deleteQ_eq_some h
  refine ⟨recs, filterGet ftf q recs, hra, ?_, hnf⟩
  unfold findQ
  rw [hra]
  rfl

/-- C4: `readAll` fails as a whole as soon as some non-tombstoned line has an
unparseable payload — it never returns a partial list — and when every
non-tombstoned line parses it returns exactly the parses of the
non-tombstoned lines, in file order. -/
theorem claim_C4 (file : List Line) :
    ((∃ l ∈ file, isDeleted l = false ∧ parsePayload l.payload = none) →
      readAll file = none) ∧
    ((∀ l ∈ file, isDeleted l = false → (parsePayload l.payload).isSome) →
      readAll file = some (file.filterMap
        (fun l => if isDeleted l then none else parsePayload l.payload))) := by
  induction file with
  | nil =>
    constructor
    · rintro ⟨l, hl, -⟩
      simp at hl
    · intro hall
      rfl
  | cons l rest ih =>
    constructor
    · rintro ⟨x, hx, hxdel, hxparse⟩
      rcases List.mem_cons.mp hx with rfl | hxrest
      · simp [readAll, hxdel, hxparse]
      · cases hd : isDeleted l with
        | true => simpa [readAll, hd] using ih.1 ⟨x, hxrest, hxdel, hxparse⟩
        | false =>
          have hrest : readAll rest = none := ih.1 ⟨x, hxrest, hxdel, hxparse⟩
          cases hp : parsePayload l.payload <;>
            simp [readAll, hd, hp, hrest]
    · intro hall
      cases hd : isDeleted l with
      | true =>
        have := ih.2 (fun x hx => hall x (List.mem_cons_of_mem l hx))
        simp [readAll, hd, this, List.filterMap_cons]
      | false =>
        have hsome := hall l (List.mem_cons_self l rest) hd
        rcases hp : parsePayload l.payload with _ | r
        · rw [hp] at hsome
          simp at hsome
        · have := ih.2 (fun x hx => hall x (List.mem_cons_of_mem l hx))
          simp [readAll, hd, hp, this, List.filterMap_cons]

/-- C7: deleting with the same query twice, with no intervening insert,
leaves the same live records (as observed by `readAll`) as deleting once. -/
theorem claim_C7 (ftf : List String) (file : List Line) (q : Query)
    (f1 f2 : List Line) (h1 : deleteQ ftf file q = some f1)
    (h2 : deleteQ ftf f1 q = some f2) :
    readAll f2 = readAll f1 := by
  obtain ⟨recs, hra, hf1⟩ := deleteQ_eq_some h1
  have hreadf1 : readAll f1 = some (recs.filter (fun r =>
      !(filterGet ftf q recs).any
        (fun d => jsStrictEq (getField d "_id") (getField r "_id")))) := by
    rw [hf1]
    exact readAll_tagged recs _
  have hnomatch : ∀ r ∈ recs.filter (fun r =>
      !(filterGet ftf q recs).any
        (fun d => jsStrictEq (getField d "_id") (getField r "_id"))),
      isOk ftf r q = false := by
    intro r hr
    obtain ⟨hrrecs, hcnd⟩ := List.mem_filter.mp hr
    cases hok : isOk ftf r q with
    | false => rfl
    | true =>
      have hrdels : r ∈ filterGet ftf q recs := by
        unfold filterGet
        exact List.mem_filter.mpr ⟨hrrecs, hok⟩
      have hany : (filterGet ftf q recs).any
          (fun d => jsStrictEq (getField d "_id") (getField r "_id")) = true :=
        List.any_eq_true.mpr ⟨r, hrdels, jsStrictEq_refl _⟩
      rw [hany] at hcnd
      simp at hcnd
  obtain ⟨recs2, hra2, hf2⟩ := deleteQ_eq_some h2
  rw [hreadf1] at hra2
  have hrecs2 : recs2 = recs.filter (fun r =>
      !(filterGet ftf q recs).any
        (fun d => jsStrictEq (getField d "_id") (getField r "_id"))) := by
    exact (Option.some.injEq _ _).mp hra2.symm
  have hempty : filterGet ftf q recs2 = [] := by
    unfold filterGet
    rw [List.filter_eq_nil_iff]
    intro a ha
    rw [hrecs2] at ha
    simp [hnomatch a ha]
  have hf2' : f2 = recs2.map writeExistingRecord := by
    rw [hf2, hempty]
    apply List.map_congr_left
    intro r _
    simp
  have : readAll f2 = some recs2 := by
    rw [hf2']
    have := readAll_tagged recs2 (fun _ => false)
    simpa using this
  rw [this, hreadf1, hrecs2]

/-- C10: the tombstone check looks only at the first character of a line:
any line whose first character is not `D` — not only the documented live tag
`E` — is treated as live, and the remainder of the line is deserialized as a
record. -/
theorem claim_C10 (c : Char) (p : Payload) (rest : List Line)
    (h : c ≠ 'D') :
    isDeleted (Line.mk c p) = false ∧
    readAll (Line.mk c p :: rest) =
      (parsePayload p).bind
        (fun r => (readAll rest).map (fun rs => r :: rs)) := by
  have hd : isDeleted (Line.mk c p) = false := by
    simpa [isDeleted] using h
  refine ⟨hd, ?_⟩
  cases hp : parsePayload p <;> simp [readAll, hd, hp]

/-! ## Concrete fixtures used by the witnesses -/

def dbR1 : Rec := Rec.mk [("_id", Value.num 1), ("a", Value.num 1)]

def dbR2 : Rec := Rec.mk [("_id", Value.num 2), ("a", Value.num 2)]

def dbQ1 : Query := Query.qcond [("a", Criterion.eq (Value.num 1))]

/-- A log with two live records and one already-tombstoned unparseable
line. -/
def dbFile : List Line :=
  [writeExistingRecord dbR1, Line.mk 'D' (Payload.bad "junk"),
    writeExistingRecord dbR2]

/-- The file produced by `delete {a: {$eq: 1}}` on `dbFile`. -/
def dbFile1 : List Line := [writeDeletedRecord dbR1, writeExistingRecord dbR2]

/-- The file produced by a second identical delete on `dbFile1`. -/
def dbFile2 : List Line := [writeExistingRecord dbR2]

/-- A log whose second line is live but unparseable. -/
def dbBadFile : List Line :=
  [writeExistingRecord dbR1, Line.mk 'E' (Payload.bad "oops")]

theorem claim_C1_witness :
    ∃ recs dels, readAll dbFile = some recs ∧
      findQ [] dbFile dbQ1 = some dels ∧
      dbFile1 = recs.map (fun r =>
        if dels.any (fun d => jsStrictEq (getField d "_id") (getField r "_id"))
        then writeDeletedRecord r else writeExistingRecord r) :=
  claim_C1 [] dbFile dbQ1 dbFile1 (by decide)

theorem claim_C4_witness :
    readAll dbBadFile = none ∧
    readAll dbFile = some (dbFile.filterMap
      (fun l => if isDeleted l then none else parsePayload l.payload)) :=
  ⟨(claim_C4 dbBadFile).1
      ⟨Line.mk 'E' (Payload.bad "oops"), by decide, by decide, by decide⟩,
    (claim_C4 dbFile).2 (by decide)⟩

theorem claim_C7_witness : readAll dbFile2 = readAll dbFile1 :=
  claim_C7 [] dbFile dbQ1 dbFile1 dbFile2 (by decide) (by decide)

theorem claim_C10_witness :
    isDeleted (Line.mk 'X' (Payload.good dbR1)) = false ∧
    readAll [Line.mk 'X' (Payload.good dbR1)] =
      (parsePayload (Payload.good dbR1)).bind
        (fun r => (readAll ([] : List Line)).map (fun rs => r :: rs)) :=
  claim_C10 'X' (Payload.good dbR1) [] (by decide)

/-! ## Lemmas about the sorter -/

theorem charListCompare_antisym (as : List Char) :
    ∀ bs, charListCompare bs as = -charListCompare as bs := by
  induction as with
  | nil => intro bs; cases bs <;> rfl
  | cons a as ih =>
    intro bs
    cases bs with
    | nil => rfl
    | cons b bs =>
      simp only [charListCompare]
      rcases lt_trichotomy a b with h | h | h
      · have h' : ¬ b < a := lt_asymm h
        simp [h, h']
      · subst h
        simp [lt_irrefl, ih bs]
      · have h' : ¬ a < b := lt_asymm h
        simp [h, h']

theorem strCompare_antisym (a b : String) :
    strCompare b a = -strCompare a b :=
  charListCompare_antisym a.toList b.toList

theorem valCompare_antisym (s : Int) (v w : Value) :
    valCompare s w v = -valCompare s v w := by
  cases v <;> cases w <;> simp only [valCompare, neg_zero]
  case num.num => ring
  case str.str => rw [strCompare_antisym]; ring

theorem fieldCompare_antisym (key : String) (s : Int) (a b : Rec) :
    fieldCompare key s b a = -fieldCompare key s a b :=
  valCompare_antisym s (getField a key) (getField b key)

theorem compareRecords_antisym (spec : List (String × Int)) (a b : Rec) :
    compareRecords spec b a = -compareRecords spec a b := by
  induction spec with
  | nil => rfl
  | cons p rest ih =>
    obtain ⟨key, s⟩ := p
    simp only [compareRecords]
    rw [fieldCompare_antisym]
    by_cases h : fieldCompare key s a b = 0
    · simp [h, ih]
    · have h' : -fieldCompare key s a b ≠ 0 := by omega
      simp [h, h']

theorem recLe_total (spec : List (String × Int)) (a b : Rec) :
    (recLe spec a b || recLe spec b a) = true := by
  unfold recLe
  rcases le_or_lt (compareRecords spec a b) 0 with h | h
  · simp [h]
  · have : compareRecords spec b a ≤ 0 := by
      rw [compareRecords_antisym]
      omega
    simp [this]

theorem compareRecords_eq_find? (spec : List (String × Int)) (a b : Rec) :
    compareRecords spec a b =
      ((spec.map (fun p => fieldCompare p.1 p.2 a b)).find?
        (fun n => n != 0)).getD 0 := by
  induction spec with
  | nil => rfl
  | cons p rest ih =>
    obtain ⟨key, s⟩ := p
    simp only [compareRecords, List.map_cons, List.find?]
    by_cases h : fieldCompare key s a b = 0
    · simp [h, ih]
    · have h' : (fieldCompare key s a b != 0) = true := by simpa using h
      simp [h, h']

theorem fieldCompare_mismatch (key : String) (s : Int) (a b : Rec)
    (hnum : ¬(typeName (getField a key) = "number" ∧
      typeName (getField b key) = "number"))
    (hstr : ¬(typeName (getField a key) = "string" ∧
      typeName (getField b key) = "string")) :
    fieldCompare key s a b = 0 := by
  unfold fieldCompare
  rcases ha : getField a key with n | st | bb | _ | _ <;>
    rcases hb : getField b key with n2 | st2 | bb2 | _ | _ <;>
      simp only [valCompare]
  · exact absurd ⟨by simp [ha, typeName], by simp [hb, typeName]⟩ hnum
  · exact absurd ⟨by simp [ha, typeName], by simp [hb, typeName]⟩ hstr

theorem pair_sublist_sorterGet (spec : List (String × Int)) (l : List Rec)
    (x y : Rec)
    (htrans : ∀ a b c : Rec, a ∈ l → b ∈ l → c ∈ l →
      recLe spec a b = true → recLe spec b c = true → recLe spec a c = true)
    (hsub : [x, y].Sublist l) (htie : compareRecords spec x y = 0) :
    [x, y].Sublist (sorterGet spec l) := by
  classical
  let le' : {r : Rec // r ∈ l} → {r : Rec // r ∈ l} → Bool :=
    fun a b => recLe spec a.1 b.1
  have trans' : ∀ a b c, le' a b → le' b c → le' a c :=
    fun a b c hab hbc => htrans a.1 b.1 c.1 a.2 b.2 c.2 hab hbc
  have total' : ∀ a b, (le' a b || le' b a) = true :=
    fun a b => recLe_total spec a.1 b.1
  have hmap : (l.attach.mergeSort le').map Subtype.val =
      l.mergeSort (recLe spec) := by
    rw [List.map_mergeSort]
    · rw [List.attach_map_subtype_val]
    · intro a _ b _
      rfl
  have hsub' : [x, y].Sublist (l.attach.map Subtype.val) := by
    rw [List.attach_map_subtype_val]
    exact hsub
  obtain ⟨c, hcsub, hceq⟩ := List.sublist_map_iff.mp hsub'
  rcases c with _ | ⟨a, c⟩
  · simp at hceq
  rcases c with _ | ⟨b, c⟩
  · simp at hceq
  rcases c with _ | ⟨z, c⟩
  · simp only [List.map_cons, List.map_nil, List.cons.injEq, and_true] at hceq
    obtain ⟨hx, hy⟩ := hceq
    have hab : le' a b = true := by
      show recLe spec a.1 b.1 = true
      rw [← hx, ← hy]
      simp [recLe, htie]
    have hpair : [a, b].Sublist (l.attach.mergeSort le') :=
      List.pair_sublist_mergeSort trans' total' hab hcsub
    have hmapped := hpair.map Subtype.val
    rw [hmap] at hmapped
    simp only [List.map_cons, List.map_nil] at hmapped
    rw [← hx, ← hy] at hmapped
    exact hmapped
  · simp at hceq

/-- C6 counterexample: the records `{a: "p"}` and `{a: 1}` tie under the sort
spec `{a: 1}` (mismatched types contribute zero), and `{a: "p"}` precedes
`{a: 1}` in the input `[{a: 2}, {a: "p"}, {a: 1}]`; yet the sorted output is
`[{a: 1}, {a: 2}, {a: "p"}]`, in which the tied pair has been transposed.
The interleaved record `{a: 2}` makes the composite comparator
non-transitive, and a stable merge sort (ECMAScript guarantees a stable sort
only for consistent comparators) then moves `{a: 1}` past the tied
`{a: "p"}` without ever comparing the two: the unconditional stability claim
is false. -/
theorem claim_C6_counterexample :
    compareRecords [("a", 1)]
        (Rec.mk [("a", Value.str "p")]) (Rec.mk [("a", Value.num 1)]) = 0 ∧
    sorterGet [("a", 1)]
        [Rec.mk [("a", Value.num 2)], Rec.mk [("a", Value.str "p")],
          Rec.mk [("a", Value.num 1)]] =
      [Rec.mk [("a", Value.num 1)], Rec.mk [("a", Value.num 2)],
        Rec.mk [("a", Value.str "p")]] := by
  constructor
  · decide
  · simp +decide [sorterGet, List.mergeSort, List.splitInTwo, List.splitAt_eq,
      List.merge, recLe, compareRecords, fieldCompare, valCompare, getField]

/-- C6 (amended): the sorter orders records with the composite comparator
that applies the per-field comparators in the sort spec's insertion order,
the first non-zero result deciding the pair; a field on which the two values
are not both numbers or not both strings contributes zero rather than
throwing; and a pair of records that ties on every comparator keeps its
original relative order provided the composite comparator is transitive on
the records being sorted (e.g. when the sort fields are uniformly typed
across the list) — with an inconsistent comparator the platform sort may
transpose tied pairs, as the counterexample shows. -/
theorem claim_C6 (spec : List (String × Int)) (l : List Rec) (x y : Rec)
    (htrans : ∀ a b c : Rec, a ∈ l → b ∈ l → c ∈ l →
      recLe spec a b = true → recLe spec b c = true → recLe spec a c = true)
    (hsub : [x, y].Sublist l) (htie : compareRecords spec x y = 0) :
    (∀ a b : Rec, compareRecords spec a b =
      ((spec.map (fun p => fieldCompare p.1 p.2 a b)).find?
        (fun n => n != 0)).getD 0) ∧
    (∀ (key : String) (s : Int) (a b : Rec),
      ¬(typeName (getField a key) = "number" ∧
        typeName (getField b key) = "number") →
      ¬(typeName (getField a key) = "string" ∧
        typeName (getField b key) = "string") →
      fieldCompare key s a b = 0) ∧
    [x, y].Sublist (sorterGet spec l) :=
  ⟨fun a b => compareRecords_eq_find? spec a b,
    fun key s a b hnum hstr => fieldCompare_mismatch key s a b hnum hstr,
    pair_sublist_sorterGet spec l x y htrans hsub htie⟩

/-- Records used by the C6 witness: both carry the numeric sort key `1`, so
they tie, and the composite comparator is transitive on the two-element
list. -/
def dbS1 : Rec := Rec.mk [("a", Value.num 1), ("b", Value.str "u")]

def dbS2 : Rec := Rec.mk [("a", Value.num 1)]

theorem claim_C6_witness :
    (∀ a b : Rec, compareRecords [("a", 1)] a b =
      (([("a", (1 : Int))].map (fun p => fieldCompare p.1 p.2 a b)).find?
        (fun n => n != 0)).getD 0) ∧
    (∀ (key : String) (s : Int) (a b : Rec),
      ¬(typeName (getField a key) = "number" ∧
        typeName (getField b key) = "number") →
      ¬(typeName (getField a key) = "string" ∧
        typeName (getField b key) = "string") →
      fieldCompare key s a b = 0) ∧
    [dbS1, dbS2].Sublist (sorterGet [("a", 1)] [dbS1, dbS2]) :=
  claim_C6 [("a", 1)] [dbS1, dbS2] dbS1 dbS2
    (by
      intro a b c ha hb hc hab hbc
      simp only [List.mem_cons, List.not_mem_nil, or_false] at ha hc
      rcases ha with rfl | rfl <;> rcases hc with rfl | rfl <;> decide)
    (List.Sublist.refl _) (by decide)
